import Mathlib

/-
Verification of the z3c.conditionalviews HTTP conditional-request package.

The development shallowly embeds the three core modules:
  * src/z3c/conditionalviews/__init__.py        (the `validate` gate)
  * src/z3c/conditionalviews/etag.py            (ETagValidator)
  * src/z3c/conditionalviews/lastmodification.py (ModifiedSinceValidator)

Python strings are modelled as `List Char`; Python code that can raise an
exception is modelled in `Except Unit`/`Except`-valued functions.  External
collaborators (the zope component registry, `zope.datetime`'s HTTP-date
parser and rfc1123 formatter) are modelled as explicit parameters: adapter
lookups become fields of `Context`, the date parser is a `Str → Option Int`
parameter (`none` = any parse exception), the formatter an `Int → Str`
parameter.  Datetimes carry whole seconds plus microseconds so that the
truncation performed by `calendar.timegm(mtime.utctimetuple())` (which drops
microseconds) is visible in the model.
-/

namespace ConditionalViews

abbrev Str := List Char

/-- Python whitespace characters, as recognised by `str.strip()`. -/
def isPySpace (c : Char) : Bool :=
  c = ' ' || c = '\t' || c = '\n' || c = '\r' || c = '\x0b' || c = '\x0c'

/-- Python `str.strip()`: drop whitespace from both ends. -/
def pytrim (l : Str) : Str :=
  ((l.dropWhile isPySpace).reverse.dropWhile isPySpace).reverse

/-- Helper for Python `str.split(",")`: accumulates the current piece
(reversed) and starts a new piece at every comma. -/
def splitAux : Str → Str → List Str
  | [], acc => [acc.reverse]
  | c :: cs, acc =>
    if c = ',' then acc.reverse :: splitAux cs []
    else splitAux cs (c :: acc)

/-- Python `s.split(",")`.  Note `"".split(",") == [""]`. -/
def splitOnComma (s : Str) : List Str := splitAux s []

/-- The `IETag` adapter's data: `etag` may be `None`, `weak` is a bool. -/
structure ETagDescriptor where
  etag : Option Str
  weak : Bool

/-- A timezone-aware datetime, reduced to its UTC epoch seconds plus the
microsecond part that `utctimetuple()` discards. -/
structure DateTime where
  sec : Int
  microsecond : Nat

/-- `calendar.timegm(dt.utctimetuple())`: whole seconds, microseconds lost. -/
def timegm (dt : DateTime) : Int := dt.sec

/-- The per-request external state: whether the context object is an
`INullResource`, and the results of the `IETag` / `ILastModificationDate`
multi-adapter lookups (`none` = no adapter registered; the inner option of
`lmStorage` is the adapter's possibly-`None` `lastmodified` attribute). -/
structure Context where
  isNullResource : Bool
  etagStorage : Option ETagDescriptor
  lmStorage : Option (Option DateTime)

/-- The request headers and attributes the validators read. -/
structure Request where
  ifNoneMatch : Option Str := none
  ifMatch : Option Str := none
  ifModifiedSince : Option Str := none
  ifUnmodifiedSince : Option Str := none
  queryString : Str := []
  method : Str := ['G', 'E', 'T']

/-- The parts of the response the gate and the validators touch.
`otherHeaders` stands for every response header other than `ETag` and
`Last-Modified`, so frame conditions can be stated. -/
structure Response where
  status : Option Nat := none
  etagHeader : Option Str := none
  lastModifiedHeader : Option Str := none
  otherHeaders : List (Str × Str) := []

/-- `request.response.setStatus(s)`. -/
def Response.setStatus (resp : Response) (s : Nat) : Response :=
  { resp with status := some s }

/-- The `W/` stripping step of `ETagValidator.parseMatchList`:
`if val[:2] == "W/": val = val[2:]`. -/
def stripW (val : Str) : Str :=
  if val.take 2 = ['W', '/'] then val.drop 2 else val

/-- One iteration of the loop in `ETagValidator.parseMatchList`
(etag.py lines 416-424).  `Except.error ()` models the `IndexError`
raised by `val[0]` when the stripped element is empty; `ok none` means
the element is silently dropped, `ok (some t)` that tag `t` is kept. -/
def parseElement (v0 : Str) : Except Unit (Option Str) :=
  if pytrim v0 = ['*'] then Except.ok (some (pytrim v0))
  else
    match stripW (pytrim v0) with
    | [] => Except.error ()
    | c :: rest =>
      if c = '"' && rest.getLastD c = '"' && decide (2 < (c :: rest).length) then
        Except.ok (some rest.dropLast)
      else Except.ok none

/-- The full loop of `ETagValidator.parseMatchList` over the split
elements, in order, propagating the first raised exception. -/
def parseElems : List Str → Except Unit (List Str)
  | [] => Except.ok []
  | v :: vs =>
    match parseElement v with
    | Except.error e => Except.error e
    | Except.ok none => parseElems vs
    | Except.ok (some t) =>
      match parseElems vs with
      | Except.error e => Except.error e
      | Except.ok ts => Except.ok (t :: ts)

/-- `ETagValidator.parseMatchList(request, header)` (etag.py 412-425),
taking the raw header value (`none` when the header is absent). -/
def parseMatchList : Option Str → Except Unit (List Str)
  | none => Except.ok []
  | some m => parseElems (splitOnComma m)

/-- `ETagValidator.evaluate` (etag.py 427-429). -/
def etagEvaluate (r : Request) : Bool :=
  r.ifNoneMatch.isSome || r.ifMatch.isSome

/-- The two steps `etag = self.getDataStorage(...)`;
`if etag is not None: etag = etag.etag` of `ETagValidator.valid`. -/
def currentETag (ctx : Context) : Option Str :=
  match ctx.etagStorage with
  | none => none
  | some d => d.etag

/-- `ETagValidator._matches` (etag.py 435-444). -/
def etagMatches (ctx : Context) (r : Request) (etag : Option Str)
    (matchset : List Str) : Bool :=
  if (['*'] : Str) ∈ matchset then !ctx.isNullResource
  else
    decide (r.queryString = []) &&
      (match etag with
       | some t => decide (t ∈ matchset)
       | none => false)

/-- `ETagValidator.valid` (etag.py 446-464).  The `Except` propagates the
`IndexError` that `parseMatchList` can raise. -/
def etagValid (ctx : Context) (r : Request) : Except Unit Bool :=
  let etag := currentETag ctx
  match parseMatchList r.ifNoneMatch with
  | Except.error e => Except.error e
  | Except.ok matchset =>
    if matchset ≠ [] then Except.ok (!(etagMatches ctx r etag matchset))
    else
      match parseMatchList r.ifMatch with
      | Except.error e => Except.error e
      | Except.ok matchset2 =>
        if matchset2 ≠ [] then Except.ok (etagMatches ctx r etag matchset2)
        else Except.ok true

/-- `ETagValidator.invalidStatus` (etag.py 466-475). -/
def etagInvalidStatus (r : Request) : Nat :=
  if r.method = ['G', 'E', 'T'] ∨ r.method = ['H', 'E', 'A', 'D'] then 304
  else 412

/-- `ETagValidator.updateResponse` (etag.py 477-487).  Note the Python
truthiness test `if etag:` which skips both `None` and the empty tag. -/
def etagUpdateResponse (ctx : Context) (r : Request) (resp : Response) :
    Response :=
  if resp.etagHeader = none ∧ r.queryString = [] then
    let weak :=
      match ctx.etagStorage with
      | none => false
      | some d => d.weak
    match currentETag ctx with
    | some t =>
      if t ≠ [] then
        if weak then { resp with etagHeader := some (['W', '/', '"'] ++ t ++ ['"']) }
        else { resp with etagHeader := some (['"'] ++ t ++ ['"']) }
      else resp
    | none => resp
  else resp

/-- `headervalue.split(";", 1)[0]`: the portion before the first `;`. -/
def beforeSemi (s : Str) : Str := s.takeWhile (fun c => c ≠ ';')

/-- `ModifiedSinceValidator.ifModifiedSince` (lastmodification.py 268-284).
`parse` models `long(zope.datetime.time(...))`; `none` stands for any
exception raised while parsing the HTTP date. -/
def ifModifiedSince (parse : Str → Option Int) (mtime : DateTime)
    (headervalue : Option Str) : Bool :=
  match headervalue with
  | none => true
  | some hv =>
    match parse (beforeSemi hv) with
    | none => true
    | some t => decide (timegm mtime > t)

/-- `ModifiedSinceValidator.evaluate` (lastmodification.py 286-289). -/
def msEvaluate (r : Request) : Bool :=
  r.ifModifiedSince.isSome || r.ifUnmodifiedSince.isSome

/-- `ModifiedSinceValidator.valid` (lastmodification.py 295-316).
`Except.error ()` models the raised
`ValueError("Protocol implementation is broken - evaluate should be False")`. -/
def msValid (parse : Str → Option Int) (ctx : Context) (r : Request) :
    Except Unit Bool :=
  if r.queryString ≠ [] then Except.ok true
  else
    match ctx.lmStorage with
    | none => Except.ok true
    | some none => Except.ok true
    | some (some lmd) =>
      if r.ifModifiedSince.isSome then
        Except.ok (ifModifiedSince parse lmd r.ifModifiedSince)
      else if r.ifUnmodifiedSince.isSome then
        Except.ok (!(ifModifiedSince parse lmd r.ifUnmodifiedSince))
      else Except.error ()

/-- `ModifiedSinceValidator.invalidStatus` (lastmodification.py 318-319). -/
def msInvalidStatus : Nat := 304

/-- `ModifiedSinceValidator.updateResponse` (lastmodification.py 321-328).
`fmt` models `zope.datetime.rfc1123_date`, applied to the whole-second
`timegm` value exactly as in the source. -/
def msUpdateResponse (fmt : Int → Str) (ctx : Context) (r : Request)
    (resp : Response) : Response :=
  if resp.lastModifiedHeader = none ∧ r.queryString = [] then
    match ctx.lmStorage with
    | some (some lmd) =>
      { resp with lastModifiedHeader := some (fmt (timegm lmd)) }
    | _ => resp
  else resp

/-- The capability set `IHTTPValidator` that the gate is polymorphic over. -/
structure HTTPValidator where
  evaluate : Context → Request → Bool
  valid : Context → Request → Bool
  invalidStatus : Context → Request → Nat
  updateResponse : Context → Request → Response → Response

/-- The counting loop of `validate` (__init__.py 33-40): threads
`(evaluated, invalid, invalidStatus)` through the validator list. -/
def validateAux (c : Context) (r : Request) :
    List HTTPValidator → Nat × Nat × Nat → Nat × Nat × Nat
  | [], acc => acc
  | v :: vs, (e, i, s) =>
    if v.evaluate c r then
      if v.valid c r then validateAux c r vs (e + 1, i, s)
      else validateAux c r vs (e + 1, i + 1, v.invalidStatus c r)
    else validateAux c r vs (e, i, s)

/-- The final loop of `validate` (__init__.py 50-51): every validator's
`updateResponse`, in list order. -/
def applyUpdates (vs : List HTTPValidator) (c : Context) (r : Request)
    (resp : Response) : Response :=
  vs.foldl (fun rp v => v.updateResponse c r rp) resp

/-- `validate` (__init__.py 23-53).  The handler `func` consumes the
response state and produces a result string together with the new response
state; on rejection the result is the empty string `""` (here `[]`). -/
def validate (vs : List HTTPValidator) (c : Context) (r : Request)
    (func : Response → Str × Response) (resp : Response) : Str × Response :=
  let counts := validateAux c r vs (0, 0, 999)
  if 0 < counts.1 ∧ counts.1 = counts.2.1 then
    ([], applyUpdates vs c r (resp.setStatus counts.2.2))
  else
    ((func resp).1, applyUpdates vs c r ((func resp).2))

/-- The status chosen by the gate on rejection, as the claim words it: the
`invalidStatus` of the last validator in list order that evaluated and
reported invalid (999 is the unused sentinel). -/
def chosenInvalidStatus (vs : List HTTPValidator) (c : Context) (r : Request) :
    Nat :=
  match (vs.filter fun v => v.evaluate c r && !(v.valid c r)).getLast? with
  | some v => v.invalidStatus c r
  | none => 999

/-- The match test exactly as claim C2 words it: when the list contains
`*`, false if the resource is a null resource and true otherwise
(regardless of query string); when the list contains no `*`, true iff the
query string is empty and the tag is a member of the list. -/
def matchTestSpec (ctx : Context) (r : Request) (t : Option Str)
    (l : List Str) : Bool :=
  if (['*'] : Str) ∈ l then
    if ctx.isNullResource then false else true
  else
    decide (r.queryString = [] ∧ ∃ tag, t = some tag ∧ tag ∈ l)

/-- The per-element outcome as claim C7 words it: the literal `*` for an
element equal to `*`; otherwise, after stripping one leading `W/` marker,
the content between the surrounding double quotes when the element is a
double-quoted string of length greater than 2; any other shape is dropped. -/
def elementTagSpec (v0 : Str) : Option Str :=
  if pytrim v0 = ['*'] then some (pytrim v0)
  else
    match stripW (pytrim v0) with
    | [] => none
    | c :: rest =>
      if c = '"' && rest.getLastD c = '"' && decide (2 < (c :: rest).length) then
        some rest.dropLast
      else none

/-- Builds a comma-separated header value from raw elements, for stating
the round-trip half of claim C7. -/
def joinComma : List Str → Str
  | [] => []
  | [p] => p
  | p :: q :: ps => p ++ ',' :: joinComma (q :: ps)

/-- A well-formed quoted element: optional weak marker, then the tag in
double quotes. -/
def quoteElem (p : Bool × Str) : Str :=
  (if p.1 then ['W', '/'] else []) ++ ['"'] ++ p.2 ++ ['"']

/-- The `ETag` header value written by `updateResponse`: the quoted tag,
prefixed with `W/` when weak (for stating claim C9). -/
def quotedTag (weak : Bool) (t : Str) : Str :=
  if weak then ['W', '/', '"'] ++ t ++ ['"'] else ['"'] ++ t ++ ['"']

/-! ## Helper lemmas -/

/-- Splitting a comma-free string yields a single piece. -/
theorem splitAux_no_comma (p : Str) : ∀ acc, (',' : Char) ∉ p →
    splitAux p acc = [acc.reverse ++ p] := by
  induction p with
  | nil => intro acc _; simp [splitAux]
  | cons x xs ih =>
    intro acc hx
    simp only [List.mem_cons, not_or] at hx
    rw [splitAux, if_neg (Ne.symm hx.1), ih (x :: acc) hx.2]
    simp

/-- Splitting peels off a comma-free piece before the first comma. -/
theorem splitAux_comma (p : Str) : ∀ (rest acc : Str), (',' : Char) ∉ p →
    splitAux (p ++ ',' :: rest) acc =
      (acc.reverse ++ p) :: splitAux rest [] := by
  induction p with
  | nil => intro rest acc _; simp [splitAux]
  | cons x xs ih =>
    intro rest acc hx
    simp only [List.mem_cons, not_or] at hx
    rw [List.cons_append, splitAux, if_neg (Ne.symm hx.1),
      ih rest (x :: acc) hx.2]
    simp

/-- `split(",")` inverts joining comma-free pieces with commas. -/
theorem splitOnComma_joinComma : ∀ ps : List Str, ps ≠ [] →
    (∀ p ∈ ps, (',' : Char) ∉ p) → splitOnComma (joinComma ps) = ps := by
  intro ps
  induction ps with
  | nil => intro h; exact absurd rfl h
  | cons p ps ih =>
    intro _ hmem
    cases ps with
    | nil =>
      have e : joinComma [p] = p := rfl
      rw [e]
      unfold splitOnComma
      rw [splitAux_no_comma p [] (hmem p (List.mem_cons_self p []))]
      simp
    | cons q qs =>
      have e : joinComma (p :: q :: qs) = p ++ ',' :: joinComma (q :: qs) := rfl
      rw [e]
      unfold splitOnComma
      rw [splitAux_comma p (joinComma (q :: qs)) []
        (hmem p (List.mem_cons_self p (q :: qs)))]
      have hrec := ih (by simp) fun w hw => hmem w (List.mem_cons_of_mem p hw)
      unfold splitOnComma at hrec
      rw [hrec]
      simp

/-- `strip()` is the identity on strings with non-space first and last
characters. -/
theorem pytrim_eq_self (l : Str)
    (h1 : ∀ c, l.head? = some c → isPySpace c = false)
    (h2 : ∀ c, l.getLast? = some c → isPySpace c = false) :
    pytrim l = l := by
  unfold pytrim
  have hd : l.dropWhile isPySpace = l := by
    cases l with
    | nil => rfl
    | cons c cs =>
      rw [List.dropWhile_cons, if_neg]
      simp [h1 c rfl]
  rw [hd]
  have hr : l.reverse.dropWhile isPySpace = l.reverse := by
    cases hrev : l.reverse with
    | nil => rfl
    | cons c cs =>
      rw [List.dropWhile_cons, if_neg]
      have hlast : l.getLast? = some c := by
        rw [← List.head?_reverse, hrev]
        rfl
      simp [h2 c hlast]
  rw [hr, List.reverse_reverse]

/-- A well-formed quoted element is untouched by trimming. -/
theorem pytrim_quoteElem (p : Bool × Str) :
    pytrim (quoteElem p) = quoteElem p := by
  rcases p with ⟨b, t⟩
  apply pytrim_eq_self
  · intro c hc
    cases b <;> simp [quoteElem] at hc <;> rw [← hc] <;> rfl
  · intro c hc
    have hq : (quoteElem (b, t)).getLast? = some '"' := by
      have e : quoteElem (b, t) =
          ((if b then ['W', '/'] else []) ++ ['"'] ++ t) ++ ['"'] := by
        simp [quoteElem]
      rw [e, List.getLast?_concat]
    rw [hq] at hc
    cases hc
    rfl

/-- `parseElement` accepts a well-formed quoted element, possibly weak,
and yields the unquoted tag. -/
theorem parseElement_quoted (b : Bool) (t : Str) (ht : t ≠ []) :
    parseElement (quoteElem (b, t)) = Except.ok (some t) := by
  have htrim := pytrim_quoteElem (b, t)
  have hstar : pytrim (quoteElem (b, t)) ≠ ['*'] := by
    rw [htrim]
    cases b <;> simp [quoteElem]
  have hsw : stripW (pytrim (quoteElem (b, t))) = '"' :: (t ++ ['"']) := by
    rw [htrim]
    cases b with
    | true =>
      have e : quoteElem (true, t) = 'W' :: '/' :: ('"' :: (t ++ ['"'])) := by
        simp [quoteElem]
      rw [e]
      simp [stripW]
    | false =>
      have e : quoteElem (false, t) = '"' :: (t ++ ['"']) := by
        simp [quoteElem]
      rw [e]
      simp [stripW]
  have hlast : (t ++ ['"']).getLastD '"' = '"' := by
    rw [List.getLastD_eq_getLast?, List.getLast?_concat]
    rfl
  have hlen : 2 < ('"' :: (t ++ ['"'])).length := by
    have hpos : 0 < t.length := List.length_pos.mpr ht
    simp only [List.length_cons, List.length_append, List.length_singleton]
    omega
  unfold parseElement
  rw [if_neg hstar, hsw]
  simp [hlast, hlen, ht, List.dropLast_concat]

/-- `parseElement` never raises on an element whose trimmed, `W/`-stripped
form is non-empty, and then computes exactly the claim's per-element
outcome. -/
theorem parseElement_ok (v : Str) (h : stripW (pytrim v) ≠ []) :
    parseElement v = Except.ok (elementTagSpec v) := by
  unfold parseElement elementTagSpec
  by_cases hstar : pytrim v = ['*']
  · simp [hstar]
  · rw [if_neg hstar, if_neg hstar]
    cases hsw : stripW (pytrim v) with
    | nil => exact absurd hsw h
    | cons c rest =>
      show (if _ then _ else _) = Except.ok (if _ then _ else _)
      split <;> rfl

/-- The element loop over raises-free elements filters and maps exactly as
the claim describes. -/
theorem parseElems_filterMap : ∀ es : List Str,
    (∀ v ∈ es, stripW (pytrim v) ≠ []) →
    parseElems es = Except.ok (es.filterMap elementTagSpec) := by
  intro es
  induction es with
  | nil => intro _; rfl
  | cons v es ih =>
    intro h
    rw [parseElems, parseElement_ok v (h v (List.mem_cons_self v es)),
      ih fun w hw => h w (List.mem_cons_of_mem v hw)]
    cases hn : elementTagSpec v <;> simp [List.filterMap_cons, hn]

/-- The element loop maps a list of well-formed quoted elements to their
tags, in order, dropping weak markers. -/
theorem parseElems_quoted : ∀ tags : List (Bool × Str),
    (∀ p ∈ tags, p.2 ≠ []) →
    parseElems (tags.map quoteElem) = Except.ok (tags.map Prod.snd) := by
  intro tags
  induction tags with
  | nil => intro _; rfl
  | cons p ps ih =>
    intro h
    rcases p with ⟨b, t⟩
    rw [List.map_cons, parseElems,
      parseElement_quoted b t (h (b, t) (List.mem_cons_self (b, t) ps)),
      ih fun w hw => h w (List.mem_cons_of_mem (b, t) hw)]
    simp

/-- `_matches` computes exactly the match test described by the spec. -/
theorem etagMatches_eq_matchTestSpec (ctx : Context) (r : Request)
    (t : Option Str) (l : List Str) :
    etagMatches ctx r t l = matchTestSpec ctx r t l := by
  unfold etagMatches matchTestSpec
  by_cases h : (['*'] : Str) ∈ l
  · simp only [h, if_true]
    cases ctx.isNullResource <;> simp
  · simp only [h, if_false]
    cases t with
    | none => simp
    | some tag =>
      by_cases hq : r.queryString = [] <;> by_cases hm : tag ∈ l <;>
        simp [hq, hm]

/-! ## Claim C6 -/

/-- Claim C6 (code_bug evidence): `parseMatchList` on an absent header does
return the empty list, but on a present empty-string header value — and on
any value with an empty comma-separated element — the source raises an
`IndexError` at `val[0]` instead of returning normally. -/
theorem parseMatchList_empty_header_raises :
    parseMatchList none = Except.ok ([] : List Str) ∧
    parseMatchList (some ([] : Str)) = Except.error () ∧
    parseMatchList (some [',']) = Except.error () :=
  ⟨rfl, rfl, rfl⟩

/-! ## Claim C8 -/

/-- Claim C8: with an empty query string, a data source supplying a
last-modified timestamp, and neither `If-Modified-Since` nor
`If-UnModified-Since` present, `ModifiedSinceValidator.valid` raises
(`ValueError`) instead of returning a boolean. -/
theorem msValid_contract_violation (parse : Str → Option Int) (ctx : Context)
    (r : Request) (mt : DateTime)
    (h1 : r.queryString = []) (h2 : ctx.lmStorage = some (some mt))
    (h3 : r.ifModifiedSince = none) (h4 : r.ifUnmodifiedSince = none) :
    msValid parse ctx r = Except.error () := by
  simp [msValid, h1, h2, h3, h4]

/-- Witness for `msValid_contract_violation` at a concrete input. -/
theorem msValid_contract_violation_witness :
    msValid (fun _ => none) ⟨false, none, some (some ⟨0, 0⟩)⟩ {} =
      Except.error () :=
  msValid_contract_violation (fun _ => none) ⟨false, none, some (some ⟨0, 0⟩)⟩
    {} ⟨0, 0⟩ rfl rfl rfl rfl

/-! ## Claim C5 -/

/-- Claim C5 counterexample: for `ModifiedSinceValidator`, a request with no
conditional headers (so `evaluate` is false), empty query string, and a data
source with a timestamp makes `valid` raise rather than return true. -/
theorem msValid_evaluate_false_cex :
    msEvaluate {} = false ∧
    msValid (fun _ => none) ⟨false, none, some (some ⟨0, 0⟩)⟩ {} =
      Except.error () :=
  ⟨rfl, rfl⟩

/-- Claim C5 (amended): if `evaluate` is false then `ETagValidator.valid`
returns true; `ModifiedSinceValidator.valid` returns true whenever it
returns normally (query string non-empty, or descriptor/timestamp absent),
and otherwise raises. -/
theorem evaluate_false_defaults (parse : Str → Option Int) (ctx : Context)
    (r : Request) :
    (etagEvaluate r = false → etagValid ctx r = Except.ok true) ∧
    (msEvaluate r = false →
      msValid parse ctx r =
        if r.queryString ≠ [] then Except.ok true
        else
          match ctx.lmStorage with
          | some (some _) => Except.error ()
          | _ => Except.ok true) := by
  constructor
  · intro h
    unfold etagEvaluate at h
    cases h1 : r.ifNoneMatch with
    | some v => rw [h1] at h; simp at h
    | none =>
      cases h2 : r.ifMatch with
      | some v => rw [h2] at h; simp at h
      | none => simp [etagValid, parseMatchList, h1, h2]
  · intro h
    unfold msEvaluate at h
    cases h1 : r.ifModifiedSince with
    | some v => rw [h1] at h; simp at h
    | none =>
      cases h2 : r.ifUnmodifiedSince with
      | some v => rw [h2] at h; simp at h
      | none =>
        by_cases hq : r.queryString = []
        · cases hlm : ctx.lmStorage with
          | none => simp [msValid, hq, hlm]
          | some o =>
            cases o with
            | none => simp [msValid, hq, hlm]
            | some lmd => simp [msValid, hq, hlm, h1, h2]
        · simp [msValid, hq]

/-- Witness for `evaluate_false_defaults` at a concrete input. -/
theorem evaluate_false_defaults_witness :
    etagValid ⟨false, none, none⟩ {} = Except.ok true :=
  (evaluate_false_defaults (fun _ => none) ⟨false, none, none⟩ {}).1 rfl

/-! ## Claim C2 -/

/-- Claim C2 counterexample: with `If-None-Match` present but containing an
empty element (value `","`), the claim's final branch says `valid` returns
true, but the source raises `IndexError` inside `parseMatchList`. -/
theorem etagValid_unparsable_header_cex :
    etagValid ⟨false, none, none⟩ { ifNoneMatch := some [','] } =
      Except.error () :=
  rfl

/-- Claim C2 (amended with: provided parsing of the present conditional
headers raises no exception): `valid` negates the match test on a non-empty
`If-None-Match` list, applies it on a non-empty `If-Match` list, and
defaults to true; the match test is the one described by the claim. -/
theorem etagValid_spec (ctx : Context) (r : Request) (mns ms : List Str)
    (h1 : parseMatchList r.ifNoneMatch = Except.ok mns)
    (h2 : parseMatchList r.ifMatch = Except.ok ms) :
    etagValid ctx r =
      Except.ok
        (if mns ≠ [] then !(matchTestSpec ctx r (currentETag ctx) mns)
         else if ms ≠ [] then matchTestSpec ctx r (currentETag ctx) ms
         else true) := by
  unfold etagValid
  rw [h1, h2]
  by_cases hm : mns = []
  · by_cases hm2 : ms = [] <;>
      simp [hm, hm2, etagMatches_eq_matchTestSpec]
  · simp [hm, etagMatches_eq_matchTestSpec]

/-- Witness for `etagValid_spec` at a concrete input. -/
theorem etagValid_spec_witness :
    etagValid ⟨false, some ⟨some ['x'], false⟩, none⟩
      { ifNoneMatch := some ['"', 'x', '"'] } = Except.ok false :=
  (etagValid_spec ⟨false, some ⟨some ['x'], false⟩, none⟩
    { ifNoneMatch := some ['"', 'x', '"'] } [['x']] [] rfl rfl).trans rfl

/-! ## Claim C4 -/

/-- Claim C4 counterexample: a request with a non-empty query string and
`If-None-Match: "*"` makes `ETagValidator.valid` return false, not true. -/
theorem queryString_etagValid_cex :
    etagValid ⟨false, none, none⟩
      { ifNoneMatch := some ['"', '*', '"'], queryString := ['a'] } =
      Except.ok false :=
  rfl

/-- Claim C4 (amended): a non-empty query string makes
`ModifiedSinceValidator.valid` return true regardless of header content and
suppresses header writes in both validators' `updateResponse`; for
`EntityTagValidator` it only disables the tag-membership half of the match
test (wildcard matching is unaffected, so `valid` can still be false). -/
theorem queryString_behavior (parse : Str → Option Int) (fmt : Int → Str)
    (ctx : Context) (r : Request) (resp : Response)
    (h : r.queryString ≠ []) :
    msValid parse ctx r = Except.ok true ∧
    etagUpdateResponse ctx r resp = resp ∧
    msUpdateResponse fmt ctx r resp = resp ∧
    (∀ t l, (['*'] : Str) ∉ l → etagMatches ctx r t l = false) := by
  refine ⟨by simp [msValid, h], by simp [etagUpdateResponse, h],
    by simp [msUpdateResponse, h], ?_⟩
  intro t l hl
  cases t <;> simp [etagMatches, hl, h]

/-- Witness for `queryString_behavior` at a concrete input. -/
theorem queryString_behavior_witness :
    msValid (fun _ => none) ⟨false, none, none⟩ { queryString := ['a'] } =
      Except.ok true :=
  (queryString_behavior (fun _ => none) (fun _ => []) ⟨false, none, none⟩
    { queryString := ['a'] } {} (by decide)).1

/-! ## Claim C3 -/

/-- Claim C3: the modification comparison is fail-open on unparsable dates
and otherwise strictly compares whole seconds; consequently, for a resource
timestamp `T` and empty query string, `If-Modified-Since` equal to `T` gives
false, `T-1s` true, `T+1s` false, and `If-UnModified-Since` gives the
negation of the comparison. -/
theorem msValid_modification_times (parse : Str → Option Int) (mt : DateTime)
    (hv : Str) :
    (parse (beforeSemi hv) = none → ifModifiedSince parse mt (some hv) = true) ∧
    (∀ t, parse (beforeSemi hv) = some t →
      ifModifiedSince parse mt (some hv) = decide (timegm mt > t)) ∧
    (∀ (ctx : Context) (r : Request),
      r.queryString = [] → ctx.lmStorage = some (some mt) →
      (r.ifModifiedSince = some hv →
        (parse (beforeSemi hv) = some (timegm mt) →
          msValid parse ctx r = Except.ok false) ∧
        (parse (beforeSemi hv) = some (timegm mt - 1) →
          msValid parse ctx r = Except.ok true) ∧
        (parse (beforeSemi hv) = some (timegm mt + 1) →
          msValid parse ctx r = Except.ok false)) ∧
      (r.ifModifiedSince = none → r.ifUnmodifiedSince = some hv →
        msValid parse ctx r =
          Except.ok (!(ifModifiedSince parse mt (some hv))))) := by
  refine ⟨fun hp => by simp [ifModifiedSince, hp], fun t hp => by
    simp [ifModifiedSince, hp], ?_⟩
  intro ctx r hq hlm
  constructor
  · intro him
    refine ⟨fun hp => ?_, fun hp => ?_, fun hp => ?_⟩ <;>
      simp [msValid, hq, hlm, him, ifModifiedSince, hp, timegm]
  · intro him hium
    simp [msValid, hq, hlm, him, hium]

/-- Witness for `msValid_modification_times` at a concrete input (note the
non-zero microsecond part, which `timegm` truncates away). -/
theorem msValid_modification_times_witness :
    msValid (fun s => if s = ['d'] then some 5 else none)
      ⟨false, none, some (some ⟨5, 7⟩)⟩ { ifModifiedSince := some ['d'] } =
      Except.ok false :=
  (((msValid_modification_times (fun s => if s = ['d'] then some 5 else none)
      ⟨5, 7⟩ ['d']).2.2 ⟨false, none, some (some ⟨5, 7⟩)⟩
      { ifModifiedSince := some ['d'] } rfl rfl).1 rfl).1 (by decide)

/-! ## Claim C9 -/

/-- Claim C9: each validator's `updateResponse` touches at most its own
header, never overwrites an already-set header, writes nothing when the
query string is non-empty, and in the writing case sets exactly the quoted
(possibly `W/`-prefixed) tag, resp. the formatted date, leaving status and
all other fields unchanged. -/
theorem updateResponse_frame (fmt : Int → Str) (ctx : Context) (r : Request)
    (resp : Response) :
    ((etagUpdateResponse ctx r resp).status = resp.status ∧
      (etagUpdateResponse ctx r resp).lastModifiedHeader =
        resp.lastModifiedHeader ∧
      (etagUpdateResponse ctx r resp).otherHeaders = resp.otherHeaders) ∧
    ((msUpdateResponse fmt ctx r resp).status = resp.status ∧
      (msUpdateResponse fmt ctx r resp).etagHeader = resp.etagHeader ∧
      (msUpdateResponse fmt ctx r resp).otherHeaders = resp.otherHeaders) ∧
    (∀ x, resp.etagHeader = some x → etagUpdateResponse ctx r resp = resp) ∧
    (∀ x, resp.lastModifiedHeader = some x →
      msUpdateResponse fmt ctx r resp = resp) ∧
    (r.queryString ≠ [] →
      etagUpdateResponse ctx r resp = resp ∧
      msUpdateResponse fmt ctx r resp = resp) ∧
    (∀ d t, resp.etagHeader = none → r.queryString = [] →
      ctx.etagStorage = some d → d.etag = some t → t ≠ [] →
      etagUpdateResponse ctx r resp =
        { resp with etagHeader := some (quotedTag d.weak t) }) ∧
    (∀ lmd, resp.lastModifiedHeader = none → r.queryString = [] →
      ctx.lmStorage = some (some lmd) →
      msUpdateResponse fmt ctx r resp =
        { resp with lastModifiedHeader := some (fmt (timegm lmd)) }) := by
  refine ⟨?_, ?_, ?_, ?_, ?_, ?_, ?_⟩
  · unfold etagUpdateResponse
    by_cases hc : resp.etagHeader = none ∧ r.queryString = []
    · simp only [hc, if_true]
      cases currentETag ctx with
      | none => simp
      | some t =>
        by_cases ht : t = [] <;>
          cases hw : (match ctx.etagStorage with
            | none => false
            | some d => d.weak) <;> simp [ht, hw]
    · simp [hc]
  · unfold msUpdateResponse
    by_cases hc : resp.lastModifiedHeader = none ∧ r.queryString = []
    · simp only [hc, if_true]
      cases hlm : ctx.lmStorage with
      | none => simp
      | some o => cases o <;> simp
    · simp [hc]
  · intro x hx
    simp [etagUpdateResponse, hx]
  · intro x hx
    simp [msUpdateResponse, hx]
  · intro h
    constructor
    · simp [etagUpdateResponse, h]
    · simp [msUpdateResponse, h]
  · intro d t he hq hst hdt ht
    simp [etagUpdateResponse, he, hq, currentETag, hst, hdt, ht, quotedTag]
    cases d.weak <;> simp
  · intro lmd hl hq hst
    simp [msUpdateResponse, hl, hq, hst]

/-- Witness for `updateResponse_frame` at a concrete input (weak tag). -/
theorem updateResponse_frame_witness :
    etagUpdateResponse ⟨false, some ⟨some ['x'], true⟩, none⟩ {} {} =
      { etagHeader := some ['W', '/', '"', 'x', '"'] } :=
  ((updateResponse_frame (fun _ => []) ⟨false, some ⟨some ['x'], true⟩, none⟩
      {} {}).2.2.2.2.2.1 ⟨some ['x'], true⟩ ['x'] rfl rfl rfl rfl
      (by decide)).trans rfl

/-! ## Claim C10 -/

/-- Claim C10: the quoting test inspects only the first and the last
character of the (`W/`-stripped) element, so an element with interior double
quotes is accepted and everything between the two outer quotes becomes the
tag. -/
theorem parseMatchList_interior_quotes (v : Str)
    (hc : (',' : Char) ∉ v) (ht : pytrim v = v)
    (c : Char) (rest : Str) (hsw : stripW v = c :: rest)
    (hq1 : c = '"') (hq2 : rest.getLastD c = '"')
    (hlen : 2 < (c :: rest).length) :
    parseMatchList (some v) = Except.ok [rest.dropLast] := by
  have hstar : v ≠ ['*'] := by
    intro h
    rw [h] at hsw
    simp [stripW] at hsw
    exact absurd (hq1 ▸ hsw.1) (by decide)
  have hsplit : splitOnComma v = [v] := by
    have key : ∀ (p acc : Str), (',' : Char) ∉ p →
        splitAux p acc = [acc.reverse ++ p] := by
      intro p
      induction p with
      | nil => intro acc _; simp [splitAux]
      | cons x xs ih =>
        intro acc hx
        simp only [List.mem_cons, not_or] at hx
        rw [splitAux, if_neg (Ne.symm hx.1), ih (x :: acc) hx.2]
        simp
    simpa using key v [] hc
  have hq2' : (rest.getLast?).getD '"' = '"' := by
    rw [hq1] at hq2
    rw [List.getLastD_eq_getLast?] at hq2
    exact hq2
  have hlen' : 2 < rest.length + 1 := by simpa using hlen
  simp [parseMatchList, hsplit, parseElems, parseElement, ht, hstar, hsw,
    hq1, hq2', hlen']

/-- Witness for `parseMatchList_interior_quotes`: the element with value
`"a"b"` yields the single tag `a"b`. -/
theorem parseMatchList_interior_quotes_witness :
    parseMatchList (some ['"', 'a', '"', 'b', '"']) =
      Except.ok [['a', '"', 'b']] :=
  parseMatchList_interior_quotes ['"', 'a', '"', 'b', '"'] (by decide)
    (by decide) '"' ['a', '"', 'b', '"'] (by decide) rfl (by decide)
    (by decide)

/-! ## Claim C1 -/

/-- The counting loop computes: evaluated count, invalid count, and the
status of the last invalid validator (with the accumulator as fallback). -/
theorem validateAux_eq (c : Context) (r : Request) :
    ∀ (vs : List HTTPValidator) (e i s : Nat),
      validateAux c r vs (e, i, s) =
        (e + vs.countP (fun v => v.evaluate c r),
         i + vs.countP (fun v => v.evaluate c r && !(v.valid c r)),
         match (vs.filter fun v =>
             v.evaluate c r && !(v.valid c r)).getLast? with
         | some v => v.invalidStatus c r
         | none => s) := by
  intro vs
  induction vs with
  | nil => intro e i s; simp [validateAux]
  | cons v vs ih =>
    intro e i s
    cases he : v.evaluate c r with
    | false =>
      rw [validateAux, if_neg (by simp [he]), ih]
      simp [List.countP_cons, List.filter_cons, he]
    | true =>
      cases hv : v.valid c r with
      | true =>
        rw [validateAux, if_pos (by simp [he]), if_pos (by simp [hv]), ih]
        simp only [List.countP_cons, List.filter_cons, he, hv, Bool.not_true,
          Bool.and_false, Bool.and_true, Bool.and_self, Prod.mk.injEq]
        refine ⟨by simp; omega, by simp, by simp⟩
      | false =>
        rw [validateAux, if_pos (by simp [he]), if_neg (by simp [hv]), ih]
        simp only [List.countP_cons, List.filter_cons, he, hv, Bool.not_false,
          Bool.and_true, Bool.and_self, Prod.mk.injEq]
        refine ⟨by simp; omega, by simp; omega, ?_⟩
        simp only [if_pos]
        cases hl : (vs.filter fun v =>
            v.evaluate c r && !(v.valid c r)) with
        | nil => simp
        | cons w ws =>
          cases hgl : (w :: ws).getLast? with
          | some u => rw [List.getLast?_cons_cons, hgl]
          | none =>
            rw [List.getLast?_eq_none_iff] at hgl
            exact absurd hgl (by simp)

/-- Unanimity: the two counts of the loop agree exactly when every
evaluating validator is invalid. -/
theorem counts_eq_iff (c : Context) (r : Request) :
    ∀ vs : List HTTPValidator,
      (vs.countP (fun v => v.evaluate c r) =
        vs.countP (fun v => v.evaluate c r && !(v.valid c r))) ↔
      (∀ v ∈ vs, v.evaluate c r = true → v.valid c r = false) := by
  intro vs
  induction vs with
  | nil => simp
  | cons v vs ih =>
    have hle : vs.countP (fun v => v.evaluate c r && !(v.valid c r)) ≤
        vs.countP (fun v => v.evaluate c r) := by
      apply List.countP_mono_left
      intro a _ ha
      simp only [Bool.and_eq_true] at ha
      exact ha.1
    cases he : v.evaluate c r with
    | false =>
      have hcnt : (v :: vs).countP (fun v => v.evaluate c r) =
          vs.countP (fun v => v.evaluate c r) := by
        simp [List.countP_cons, he]
      have hcnt2 : (v :: vs).countP (fun v => v.evaluate c r && !(v.valid c r)) =
          vs.countP (fun v => v.evaluate c r && !(v.valid c r)) := by
        simp [List.countP_cons, he]
      rw [hcnt, hcnt2, ih]
      constructor
      · intro h w hw hew
        rcases List.mem_cons.mp hw with hw | hw
        · subst hw; exact absurd hew (by simp [he])
        · exact h w hw hew
      · intro h
        exact fun w hw hew => h w (List.mem_cons_of_mem v hw) hew
    | true =>
      cases hv : v.valid c r with
      | true =>
        have hcnt : (v :: vs).countP (fun v => v.evaluate c r) =
            vs.countP (fun v => v.evaluate c r) + 1 := by
          simp [List.countP_cons, he]
        have hcnt2 : (v :: vs).countP (fun v => v.evaluate c r && !(v.valid c r)) =
            vs.countP (fun v => v.evaluate c r && !(v.valid c r)) := by
          simp [List.countP_cons, hv]
        rw [hcnt, hcnt2]
        constructor
        · intro h
          exact absurd h (by omega)
        · intro h
          exact absurd (h v (List.mem_cons_self v vs) he) (by simp [hv])
      | false =>
        have hcnt : (v :: vs).countP (fun v => v.evaluate c r) =
            vs.countP (fun v => v.evaluate c r) + 1 := by
          simp [List.countP_cons, he]
        have hcnt2 : (v :: vs).countP (fun v => v.evaluate c r && !(v.valid c r)) =
            vs.countP (fun v => v.evaluate c r && !(v.valid c r)) + 1 := by
          simp [List.countP_cons, he, hv]
        rw [hcnt, hcnt2]
        constructor
        · intro h w hw hew
          rcases List.mem_cons.mp hw with hw | hw
          · subst hw; exact hv
          · exact (ih.mp (by omega)) w hw hew
        · intro h
          have := ih.mpr fun w hw hew => h w (List.mem_cons_of_mem v hw) hew
          omega

/-- Claim C1: the gate rejects exactly when at least one validator
evaluates and every evaluating validator is invalid; on rejection it sets
the status to the `invalidStatus` of the last invalid validator in list
order, skips the handler and returns the empty result; otherwise it returns
the handler's result and sets no status itself; in both branches every
validator's `updateResponse` is then applied in list order. -/
theorem validate_spec (vs : List HTTPValidator) (c : Context) (r : Request)
    (func : Response → Str × Response) (resp : Response) :
    validate vs c r func resp =
      if (∃ v ∈ vs, v.evaluate c r = true) ∧
         (∀ v ∈ vs, v.evaluate c r = true → v.valid c r = false) then
        ([], applyUpdates vs c r (resp.setStatus (chosenInvalidStatus vs c r)))
      else ((func resp).1, applyUpdates vs c r ((func resp).2)) := by
  unfold validate
  rw [validateAux_eq]
  simp only [Nat.zero_add]
  have hpos : (0 < vs.countP (fun v => v.evaluate c r)) ↔
      ∃ v ∈ vs, v.evaluate c r = true := by
    rw [List.countP_pos_iff]
  by_cases H : (∃ v ∈ vs, v.evaluate c r = true) ∧
      (∀ v ∈ vs, v.evaluate c r = true → v.valid c r = false)
  · rw [if_pos H, if_pos ⟨hpos.mpr H.1, (counts_eq_iff c r vs).mpr H.2⟩]
    rfl
  · rw [if_neg H, if_neg]
    intro hc
    exact H ⟨hpos.mp hc.1, (counts_eq_iff c r vs).mp hc.2⟩

/-! ## Claim C7 -/

/-- Claim C7 counterexample: the header value `"a",,"b"` has an empty
element between the two commas; the claim says the element is dropped and
the rest kept, but the source raises `IndexError` instead. -/
theorem parseMatchList_empty_element_cex :
    parseMatchList (some ['"', 'a', '"', ',', ',', '"', 'b', '"']) =
      Except.error () :=
  rfl

/-- Claim C7 (amended with: provided every comma-separated element is
non-empty after trimming and `W/`-stripping, which is where the source
raises): `parseMatchList` splits on commas, trims each element, and
produces in order the claim's per-element outcomes; consequently
well-formed quoted tag lists round-trip their tag values in order with
weak markers removed. -/
theorem parseMatchList_wellformed :
    (∀ m : Str, (∀ v ∈ splitOnComma m, stripW (pytrim v) ≠ []) →
      parseMatchList (some m) =
        Except.ok ((splitOnComma m).filterMap elementTagSpec)) ∧
    (∀ tags : List (Bool × Str), tags ≠ [] →
      (∀ p ∈ tags, p.2 ≠ [] ∧ (',' : Char) ∉ p.2) →
      parseMatchList (some (joinComma (tags.map quoteElem))) =
        Except.ok (tags.map Prod.snd)) := by
  constructor
  · intro m h
    exact parseElems_filterMap (splitOnComma m) h
  · intro tags hne h
    show parseElems (splitOnComma (joinComma (tags.map quoteElem))) = _
    have hsplit : splitOnComma (joinComma (tags.map quoteElem)) =
        tags.map quoteElem := by
      apply splitOnComma_joinComma
      · simp [hne]
      · intro piece hp
        rw [List.mem_map] at hp
        rcases hp with ⟨q, hq, hqe⟩
        rcases q with ⟨b, t⟩
        intro hcomma
        rw [← hqe] at hcomma
        apply (h (b, t) hq).2
        cases b <;> simpa [quoteElem] using hcomma
    rw [hsplit]
    exact parseElems_quoted tags fun p hp => (h p hp).1

/-- Witness for `parseMatchList_wellformed`: the header `"a",W/"b"` parses
to the tags `a` and `b`, in order. -/
theorem parseMatchList_wellformed_witness :
    parseMatchList
      (some (joinComma ([(false, ['a']), (true, ['b'])].map quoteElem))) =
      Except.ok [['a'], ['b']] :=
  (parseMatchList_wellformed.2 [(false, ['a']), (true, ['b'])] (by decide)
    (by decide)).trans rfl

end ConditionalViews
